import Mathlib

/-!
Verification model of the DeepTrack feature-graph evaluation engine.

The repository ships tutorial notebooks that exercise the engine
(`deeptrack.features`, `deeptrack.properties`): `Feature` nodes owning
`PropertyDict`s of resampling `Property` cells, composed with the operators
`+` (Branch), `*` (Probability) and `**` (Duplicate), and evaluated through
the two lifecycle calls `update()` and `resolve(input)`.  The engine
implementation itself is not part of the provided sources, so the
definitions below are modelled from the specification of that engine and
checked against the usage shown in the notebooks.

Ambient randomness is made explicit, as the specification's design notes
require: samplers draw from an entropy counter threaded through `update`,
and the `Probability` coin flips read an explicit stream of unit-interval
rationals threaded through `resolve`.
-/

/-- Values carried by properties and images; rationals stand in for the
numeric values of the Python engine. -/
abbrev Val := ℚ

/-- Property names (Python keyword-argument names). -/
abbrev PropName := String

/-- Identity of one `Property` instance.  Two features holding the same
`PropId` share one Property object, as in the notebooks' shared
`position_property`. -/
abbrev PropId := Nat

/-- Modelled from the spec: the value-producing rule of a `Property` —
one of a constant value, a zero-argument sampler, or a sampler depending
on named sibling properties.  A sampler consumes one draw from the
explicit entropy counter. -/
inductive Rule where
  | constant (v : Val)
  | sampler (f : Nat → Val)
  | dependent (deps : List PropName) (f : List Val → Val)

/-- Modelled from the spec: the mutable state of one `Property` — its
rule, its cached current value, and the version/cycle marker used to
avoid resampling twice in one `update()` pass. -/
structure PropertyState where
  rule : Rule
  current : Val
  cycle : Nat

/-- The global heap of `Property` instances, keyed by identity.  Sharing a
single Property object across features is sharing a `PropId`. -/
abbrev Store := List (PropId × PropertyState)

/-- Look up a property instance by identity (first match). -/
def lookupProp : Store → PropId → Option PropertyState
  | [], _ => none
  | (q, ps) :: rest, pid => if q = pid then some ps else lookupProp rest pid

/-- Replace the state of a property instance in place. -/
def setProp : Store → PropId → PropertyState → Store
  | [], _, _ => []
  | (q, ps) :: rest, pid, ps' =>
    if q = pid then (q, ps') :: rest else (q, ps) :: setProp rest pid ps'

/-- Modelled from the spec: a `PropertyDict` is an insertion-ordered
mapping of names to the Property instances owned by one Feature. -/
abbrev PropertyDict := List (PropName × PropId)

/-- Look up the property bound to a name in a dict (first match). -/
def dictLookup : PropertyDict → PropName → Option PropId
  | [], _ => none
  | (n, p) :: rest, d => if n = d then some p else dictLookup rest d

/-- Modelled from the spec: the error taxonomy of the engine.
`missingDependency` is a sampler naming an undefined sibling;
`invalidCount` is a Duplicate count that is negative or non-integer;
`missingProperty` is a dangling property reference; `outOfFuel` models
non-termination of a cyclic dependency chain. -/
inductive EngineError where
  | missingDependency (name : PropName)
  | missingProperty (name : PropName)
  | invalidCount
  | outOfFuel
deriving DecidableEq, Repr

/-- The state threaded through `update()`: the property heap, the entropy
counter feeding samplers, and the next fresh `PropId` for deep copies. -/
structure UState where
  store : Store
  entropy : Nat
  fresh : PropId

/-- Read the current values of the named dependencies of a dependent
sampler, resolving each name through the owning dict. -/
def readDeps (dict : PropertyDict) (store : Store) :
    List PropName → Except EngineError (List Val)
  | [] => .ok []
  | d :: rest =>
    match dictLookup dict d with
    | none => .error (.missingDependency d)
    | some pid =>
      match lookupProp store pid with
      | none => .error (.missingProperty d)
      | some ps =>
        match readDeps dict store rest with
        | .error e => .error e
        | .ok vs => .ok (ps.current :: vs)

mutual

/-- Modelled from the spec: `Property.update` for one property in one
cycle.  If the property's cycle marker already equals the current cycle it
is left untouched (a sampler executes at most once per cycle).  Otherwise
a constant rule rewrites its value (still counted as sampled), a sampler
consumes one entropy draw, and a dependent rule first refreshes its named
dependencies (on-demand topological order) and then computes from their
same-cycle values.  Fuel bounds the dependency chain. -/
def updateProp (fuel : Nat) (cycle : Nat) (dict : PropertyDict) (pid : PropId)
    (nm : PropName) (st : UState) : Except EngineError UState :=
  match fuel with
  | 0 => .error .outOfFuel
  | fuel + 1 =>
    match lookupProp st.store pid with
    | none => .error (.missingProperty nm)
    | some ps =>
      if ps.cycle = cycle then .ok st
      else
        match ps.rule with
        | .constant v =>
          .ok { st with store := setProp st.store pid ⟨ps.rule, v, cycle⟩ }
        | .sampler f =>
          .ok { st with
                store := setProp st.store pid ⟨ps.rule, f st.entropy, cycle⟩,
                entropy := st.entropy + 1 }
        | .dependent deps g =>
          match updateDeps fuel cycle dict deps st with
          | .error e => .error e
          | .ok st1 =>
            match readDeps dict st1.store deps with
            | .error e => .error e
            | .ok vs =>
              .ok { st1 with store := setProp st1.store pid ⟨ps.rule, g vs, cycle⟩ }

/-- Refresh all named dependencies of a dependent property, in order. -/
def updateDeps (fuel : Nat) (cycle : Nat) (dict : PropertyDict)
    (names : List PropName) (st : UState) : Except EngineError UState :=
  match fuel with
  | 0 => .error .outOfFuel
  | fuel + 1 =>
    match names with
    | [] => .ok st
    | d :: rest =>
      match dictLookup dict d with
      | none => .error (.missingDependency d)
      | some pid =>
        match updateProp fuel cycle dict pid d st with
        | .error e => .error e
        | .ok st1 => updateDeps fuel cycle dict rest st1

end

/-- Modelled from the spec: `PropertyDict.update` — resample every owned
property exactly once, walking the dict in insertion order (dependencies
are pulled forward on demand, so evaluation respects a topological order
of the declared dependencies). -/
def updateProps (fuel : Nat) (cycle : Nat) (dict : PropertyDict) :
    List (PropName × PropId) → UState → Except EngineError UState
  | [], st => .ok st
  | (n, pid) :: rest, st =>
    match updateProp fuel cycle dict pid n st with
    | .error e => .error e
    | .ok st1 => updateProps fuel cycle dict rest st1

/-- Modelled from the spec: the merge policy of a Feature — `override`
replaces the working list with the transform's output, `append`
concatenates the transform's output onto the end of the working list. -/
inductive MergeStrategy where
  | override
  | append
deriving DecidableEq, Repr

/-- Modelled from the spec: the artifact produced by `resolve()` — a value
plus the ordered provenance list of per-node property snapshots. -/
structure Image where
  data : Val
  properties : List (List (PropName × Val))
deriving DecidableEq, Repr

/-- Modelled from the spec: the feature-graph node.  A `leaf` owns a
`PropertyDict`, the `distributed` flag, a merge strategy and the `get`
transform; `branch` is the `+` operator, `probability` the `*` operator
(its probability is the property `pPid`), and `duplicate` the `**`
operator, carrying the wrapped template, the count rule, and the count and
deep copies instantiated by the last `update()`. -/
inductive Feature where
  | leaf (dict : PropertyDict) (distributed : Bool) (merge : MergeStrategy)
      (get : List (PropName × Val) → List Image → List Image)
  | branch (first second : Feature)
  | probability (child : Feature) (pPid : PropId)
  | duplicate (template : Feature) (countRule : Rule) (count : Nat)
      (copies : List Feature)

/-- All property instances referenced by a feature tree (a Duplicate's
instantiated copies are regenerated on update and are not collected). -/
def collectPids : Feature → List PropId
  | .leaf dict _ _ _ => dict.map (fun e => e.2)
  | .branch a b => collectPids a ++ collectPids b
  | .probability c pPid => pPid :: collectPids c
  | .duplicate t _ _ _ => collectPids t

/-- Apply a property-identity renaming (identity outside its domain). -/
def renameId : List (PropId × PropId) → PropId → PropId
  | [], p => p
  | (a, b) :: rest, p => if a = p then b else renameId rest p

/-- Rebuild a feature tree under a property renaming.  A Duplicate's
stale copies are dropped: they are reinstantiated by the next update. -/
def renameFeature (ren : List (PropId × PropId)) : Feature → Feature
  | .leaf dict d m g => .leaf (dict.map (fun e => (e.1, renameId ren e.2))) d m g
  | .branch a b => .branch (renameFeature ren a) (renameFeature ren b)
  | .probability c pPid => .probability (renameFeature ren c) (renameId ren pPid)
  | .duplicate t r _ _ => .duplicate (renameFeature ren t) r 0 []

/-- Allocate fresh property instances for a deep copy, duplicating the
current state of each template property. -/
def copyProps : List (PropId × PropId) → Store → Except EngineError Store
  | [], store => .ok store
  | (old, new) :: rest, store =>
    match lookupProp store old with
    | none => .error (.missingProperty (toString old))
    | some ps => copyProps rest ((new, ps) :: store)

/-- Modelled from the spec: deep copy of a wrapped sub-feature graph.
Every distinct property instance of the template is duplicated into a
fresh instance exactly once, so a Property object deliberately shared
inside the template stays shared inside the copy, while distinct copies
never share fresh instances. -/
def deepCopy (t : Feature) (st : UState) : Except EngineError (Feature × UState) :=
  let pids := (collectPids t).dedup
  let ren := pids.zip ((List.range pids.length).map (fun i => st.fresh + i))
  match copyProps ren st.store with
  | .error e => .error e
  | .ok store' =>
    .ok (renameFeature ren t,
         { store := store', entropy := st.entropy, fresh := st.fresh + pids.length })

/-- Validate a Duplicate count value: an error if negative or non-integer. -/
def ratToCount (v : Val) : Except EngineError Nat :=
  if v.den = 1 ∧ 0 ≤ v.num then .ok v.num.toNat else .error .invalidCount

/-- Modelled from the spec: evaluate a Duplicate's count rule during
`update()`.  A sampler consumes one entropy draw; a count depending on
other properties has no sibling dict to resolve against. -/
def evalCount (rule : Rule) (st : UState) : Except EngineError (Nat × UState) :=
  match rule with
  | .constant v =>
    match ratToCount v with
    | .error e => .error e
    | .ok n => .ok (n, st)
  | .sampler f =>
    match ratToCount (f st.entropy) with
    | .error e => .error e
    | .ok n => .ok (n, { st with entropy := st.entropy + 1 })
  | .dependent _ _ => .error (.missingDependency "count")

/-- Instantiate and update `n` deep copies of a template, in creation
order, with `updF` the feature updater for one cycle. -/
def runCopies (updF : Feature → UState → Except EngineError (Feature × UState))
    (t : Feature) : Nat → UState → Except EngineError (List Feature × UState)
  | 0, st => .ok ([], st)
  | n + 1, st =>
    match deepCopy t st with
    | .error e => .error e
    | .ok (c, st1) =>
      match updF c st1 with
      | .error e => .error e
      | .ok (c', st2) =>
        match runCopies updF t n st2 with
        | .error e => .error e
        | .ok (rest, st3) => .ok (c' :: rest, st3)

/-- Modelled from the spec: `Feature.update()` for one cycle.  A leaf
resamples its owned properties once; a Branch updates both children once;
a Probability updates its probability property and its child; a Duplicate
evaluates its count rule and then instantiates and samples exactly that
many independent deep copies of its template.  Fuel bounds the recursion
through freshly instantiated copies. -/
def updateF (fuel : Nat) (cycle : Nat) (f : Feature) (st : UState) :
    Except EngineError (Feature × UState) :=
  match fuel with
  | 0 => .error .outOfFuel
  | fuel + 1 =>
    match f with
    | .leaf dict d m g =>
      match updateProps fuel cycle dict dict st with
      | .error e => .error e
      | .ok st' => .ok (.leaf dict d m g, st')
    | .branch a b =>
      match updateF fuel cycle a st with
      | .error e => .error e
      | .ok (a', st1) =>
        match updateF fuel cycle b st1 with
        | .error e => .error e
        | .ok (b', st2) => .ok (.branch a' b', st2)
    | .probability c pPid =>
      match updateProp fuel cycle [("probability", pPid)] pPid "probability" st with
      | .error e => .error e
      | .ok st1 =>
        match updateF fuel cycle c st1 with
        | .error e => .error e
        | .ok (c', st2) => .ok (.probability c' pPid, st2)
    | .duplicate t rule _ _ =>
      match evalCount rule st with
      | .error e => .error e
      | .ok (n, st1) =>
        match runCopies (fun c s => updateF fuel cycle c s) t n st1 with
        | .error e => .error e
        | .ok (copies, st2) => .ok (.duplicate t rule n copies, st2)

/-- The state threaded through `resolve()`: the property heap (read-only
for resolve) and the position in the uniform-draw stream consumed by
Probability nodes. -/
structure RState where
  store : Store
  pos : Nat

/-- First dependency name of a dependent rule not defined in the dict. -/
def firstMissing (dict : PropertyDict) : List PropName → Option PropName
  | [] => none
  | d :: rest => if (dictLookup dict d).isSome then firstMissing dict rest else some d

/-- Modelled from the spec: the resolve-time check that every sibling
name referenced by a dependent property exists in the owning dict; a
missing name is a missing-dependency error rather than a silent
fallback. -/
def validateDeps (store : Store) (dict : PropertyDict) :
    List (PropName × PropId) → Except EngineError Unit
  | [] => .ok ()
  | (n, pid) :: rest =>
    match lookupProp store pid with
    | none => .error (.missingProperty n)
    | some ps =>
      match ps.rule with
      | .dependent deps _ =>
        match firstMissing dict deps with
        | some d => .error (.missingDependency d)
        | none => validateDeps store dict rest
      | _ => validateDeps store dict rest

/-- Look up a per-call override by name (first match). -/
def ovLookup : List (PropName × Val) → PropName → Option Val
  | [], _ => none
  | (n, v) :: rest, d => if n = d then some v else ovLookup rest d

/-- Gather the keyword arguments for a leaf's transform: the current
resolved value of each owned property, shadowed by any one-off override
passed to this resolve call. -/
def gatherKwargs (store : Store) (ov : List (PropName × Val)) :
    PropertyDict → Except EngineError (List (PropName × Val))
  | [] => .ok []
  | (n, pid) :: rest =>
    match lookupProp store pid with
    | none => .error (.missingProperty n)
    | some ps =>
      match gatherKwargs store ov rest with
      | .error e => .error e
      | .ok ks =>
        match ovLookup ov n with
        | some w => .ok ((n, w) :: ks)
        | none => .ok ((n, ps.current) :: ks)

/-- Modelled from the spec: the `distributed` flag — the transform is
invoked once per element of the input list independently (outputs
assembled in order), or once on the whole list. -/
def applyGet (distributed : Bool)
    (get : List (PropName × Val) → List Image → List Image)
    (kwargs : List (PropName × Val)) (input : List Image) : List Image :=
  if distributed then (input.map (fun im => get kwargs [im])).flatten
  else get kwargs input

/-- Attach this node's property snapshot to each image it produced, in
visitation order. -/
def stampProv (kwargs : List (PropName × Val)) (imgs : List Image) : List Image :=
  imgs.map (fun im => { im with properties := im.properties ++ [kwargs] })

/-- Modelled from the spec: merge the transform output with the working
list according to the node's merge strategy. -/
def applyMerge : MergeStrategy → List Image → List Image → List Image
  | .override, _, out => out
  | .append, inp, out => inp ++ out

mutual

/-- Modelled from the spec: `Feature.resolve(input)` for the current
property state.  A leaf validates its dependency names, gathers its
current property values (shadowed by per-call overrides), applies its
transform under the `distributed` flag, stamps the provenance snapshot and
merges by its strategy; a Branch resolves `first` and feeds the result to
`second`; a Probability consumes one uniform draw and delegates to its
child exactly when the draw is below the current value of its probability
property; a Duplicate resolves the copies instantiated by the last
`update()`, in creation order, without re-evaluating its count. -/
def resolveF (u : Nat → ℚ) (ov : List (PropName × Val)) (f : Feature)
    (input : List Image) (st : RState) : Except EngineError (List Image × RState) :=
  match f with
  | .leaf dict distr merge get =>
    match validateDeps st.store dict dict with
    | .error e => .error e
    | .ok _ =>
      match gatherKwargs st.store ov dict with
      | .error e => .error e
      | .ok kwargs =>
        .ok (applyMerge merge input (stampProv kwargs (applyGet distr get kwargs input)), st)
  | .branch a b =>
    match resolveF u ov a input st with
    | .error e => .error e
    | .ok (mid, st1) => resolveF u ov b mid st1
  | .probability c pPid =>
    match lookupProp st.store pPid with
    | none => .error (.missingProperty "probability")
    | some ps =>
      if u st.pos < ps.current then
        resolveF u ov c input { st with pos := st.pos + 1 }
      else .ok (input, { st with pos := st.pos + 1 })
  | .duplicate _ _ _ copies => resolveList u ov copies input st

/-- Resolve a list of instantiated copies in creation order, threading
the accumulating image list through. -/
def resolveList (u : Nat → ℚ) (ov : List (PropName × Val)) :
    List Feature → List Image → RState → Except EngineError (List Image × RState)
  | [], input, st => .ok (input, st)
  | c :: rest, input, st =>
    match resolveF u ov c input st with
    | .error e => .error e
    | .ok (mid, st1) => resolveList u ov rest mid st1

end

/-!  Fixtures: concrete feature graphs mirroring the notebook examples,
used to instantiate the claims about the engine. -/

/-- A content transform in the style of `PointParticle`/`Circle`: appends
one fresh image, independent of the working list. -/
def getContent : List (PropName × Val) → List Image → List Image :=
  fun _ _ => [⟨1, []⟩]

/-- A scatterer-style leaf, `PointParticle(position=lambda: ...)`: one
`position` property (instance 0), appended content. -/
def contentLeaf : Feature := .leaf [("position", 0)] false .append getContent

/-- The instantiated copy of `contentLeaf` whose fresh position property
is instance `p`. -/
def copyLeafAt (p : PropId) : Feature := .leaf [("position", p)] false .append getContent

/-- The property heap produced by duplicating `contentLeaf` `i` times at
cycle 1: the template's property (instance 0, sampler `g`, initial `v0`)
plus one fresh sampled instance per copy, draws starting at `k0`. -/
def dupStore (g : Nat → Val) (v0 : Val) (k0 : Nat) : Nat → Store
  | 0 => [(0, ⟨.sampler g, v0, 0⟩)]
  | i + 1 => (1 + i, ⟨.sampler g, g (k0 + i), 1⟩) :: dupStore g v0 k0 i

/-- The full update state after `i` copies: heap `dupStore`, entropy
advanced by one draw per copy, fresh counter past the allocated ids. -/
def dupState (g : Nat → Val) (v0 : Val) (k0 : Nat) (i : Nat) : UState :=
  ⟨dupStore g v0 k0 i, k0 + i, 1 + i⟩

/-- The copies instantiated for indices `i, i+1, ..., i+m-1`. -/
def copyList (i m : Nat) : List Feature :=
  (List.range m).map (fun j => copyLeafAt (1 + i + j))

/-- The images those copies append on resolve: one image per copy, each
carrying exactly one provenance entry with that copy's own position. -/
def addedImgs (g : Nat → Val) (k0 i m : Nat) : List Image :=
  (List.range m).map (fun j => ⟨1, [[("position", g (k0 + i + j))]]⟩)

/-- A template in which two sibling leaves deliberately share one
Property instance (id 0), as the notebooks' shared `position_property`. -/
def sharedTmpl : Feature :=
  .branch (.leaf [("a", 0)] false .append getContent)
          (.leaf [("b", 0)] false .append getContent)

/-- Dict of the stacked-circles leaf: `radius` is declared before the
sibling `base_radius` on which it depends. -/
def depDict : PropertyDict := [("radius", 1), ("base_radius", 0)]

/-- Heap for `depDict`: `radius` (instance 1) depends on `base_radius`
(instance 0, a sampler); both carry stale pre-cycle values. -/
def depStore (g : Nat → Val) (h2 : List Val → Val) (r0 b0 : Val) : Store :=
  [(1, ⟨.dependent ["base_radius"] h2, r0, 0⟩), (0, ⟨.sampler g, b0, 0⟩)]

/-- A pair of features that share Property instance 0 under different
names, as the notebooks' circles sharing one `position_property`. -/
def sharedPair : Feature :=
  .branch (.leaf [("position", 0)] false .append getContent)
          (.leaf [("pos2", 0)] false .append getContent)

/-- Two resolve outcomes have the same control shape: they fail with the
same error, or both succeed in the same final resolve state (the images
may differ). -/
def sameShape : Except EngineError (List Image × RState) →
    Except EngineError (List Image × RState) → Prop
  | .ok (_, s1), .ok (_, s2) => s1 = s2
  | .error e1, .error e2 => e1 = e2
  | _, _ => False

/-- The instantiated copy of `sharedTmpl` whose single shared fresh
property instance is `p`: the deliberate sharing survives the deep copy. -/
def copyShared (p : PropId) : Feature :=
  .branch (.leaf [("a", p)] false .append getContent)
          (.leaf [("b", p)] false .append getContent)

/-- Claim C3: for every Branch node `A + B` and every input, resolve first
calls A's resolve on the input, then feeds A's result into B's resolve and
returns B's result; update() updates both children exactly once per
cycle. -/
theorem branch_resolve_then_update (u : Nat → ℚ) (ov : List (PropName × Val))
    (a b : Feature) (input : List Image) (st : RState)
    (fuel cycle : Nat) (st0 : UState) :
    resolveF u ov (.branch a b) input st =
      (resolveF u ov a input st).bind (fun r => resolveF u ov b r.1 r.2) ∧
    updateF (fuel + 1) cycle (.branch a b) st0 =
      (updateF fuel cycle a st0).bind (fun ra =>
        (updateF fuel cycle b ra.2).bind (fun rb =>
          .ok (.branch ra.1 rb.1, rb.2))) := by
  constructor
  · cases hA : resolveF u ov a input st with
    | error e => simp [resolveF, hA, Except.bind]
    | ok r =>
      obtain ⟨mid, st1⟩ := r
      simp [resolveF, hA, Except.bind]
  · cases hA : updateF fuel cycle a st0 with
    | error e => simp [updateF, hA, Except.bind]
    | ok ra =>
      obtain ⟨a', st1⟩ := ra
      cases hB : updateF fuel cycle b st1 with
      | error e => simp [updateF, hA, hB, Except.bind]
      | ok rb =>
        obtain ⟨b', st2⟩ := rb
        simp [updateF, hA, hB, Except.bind]

/-- Claim C4: for all Features A, B, C and every input, `(A+B)+C` and
`A+(B+C)` produce identical resolved output and identical provenance
ordering (first-then-second, depth-first). -/
theorem branch_assoc_resolve (u : Nat → ℚ) (ov : List (PropName × Val))
    (A B C : Feature) (input : List Image) (st : RState) :
    resolveF u ov (.branch (.branch A B) C) input st =
      resolveF u ov (.branch A (.branch B C)) input st := by
  cases hA : resolveF u ov A input st with
  | error e => simp [resolveF, hA]
  | ok rA =>
    obtain ⟨m1, s1⟩ := rA
    cases hB : resolveF u ov B m1 s1 with
    | error e => simp [resolveF, hA, hB]
    | ok rB =>
      obtain ⟨m2, s2⟩ := rB
      simp [resolveF, hA, hB]

/-- Claim C6: resolving `F * 1.0` always delegates to F (passing through
its output and provenance) with the uniform draw consumed exactly once;
resolving `F * 0.0` always returns the input unchanged, also consuming
exactly one draw. -/
theorem probability_boundary (u : Nat → ℚ) (ov : List (PropName × Val))
    (c : Feature) (input : List Image)
    (store store0 : Store) (pos pos0 : Nat) (pid pid0 : PropId)
    (ps1 ps0 : PropertyState)
    (hu : ∀ n, 0 ≤ u n ∧ u n < 1)
    (h1 : lookupProp store pid = some ps1) (hp1 : ps1.current = 1)
    (h0 : lookupProp store0 pid0 = some ps0) (hp0 : ps0.current = 0) :
    resolveF u ov (.probability c pid) input ⟨store, pos⟩ =
      resolveF u ov c input ⟨store, pos + 1⟩ ∧
    resolveF u ov (.probability c pid0) input ⟨store0, pos0⟩ =
      .ok (input, ⟨store0, pos0 + 1⟩) := by
  constructor
  · have hlt : u pos < ps1.current := by rw [hp1]; exact (hu pos).2
    simp [resolveF, h1, hlt]
  · have hge : ¬ u pos0 < ps0.current := by rw [hp0]; exact not_lt.mpr (hu pos0).1
    simp [resolveF, h0, hge]

/-- Claim C7: with the `override` merge strategy, resolve returns the
transform's (stamped) output in place of the working list; with `append`
it returns the input list with the transform's output concatenated onto
its end — the same transform output in both cases. -/
theorem merge_strategy_semantics (u : Nat → ℚ) (ov : List (PropName × Val))
    (dict : PropertyDict) (distr : Bool)
    (get : List (PropName × Val) → List Image → List Image)
    (input : List Image) (st : RState) (kwargs : List (PropName × Val))
    (hv : validateDeps st.store dict dict = .ok ())
    (hg : gatherKwargs st.store ov dict = .ok kwargs) :
    resolveF u ov (.leaf dict distr .override get) input st =
      .ok (stampProv kwargs (applyGet distr get kwargs input), st) ∧
    resolveF u ov (.leaf dict distr .append get) input st =
      .ok (input ++ stampProv kwargs (applyGet distr get kwargs input), st) := by
  constructor
  · simp [resolveF, hv, hg, applyMerge]
  · simp [resolveF, hv, hg, applyMerge]

/-- Claim C9: resolving a feature before any update() succeeds using the
property's default/initial value (cycle marker still 0); resolving a node
whose property sampler references an undefined sibling name fails with a
missing-dependency error rather than silently falling back. -/
theorem resolve_defaults_and_missing_dependency (u : Nat → ℚ)
    (nm d : PropName) (g : Nat → Val) (h2 : List Val → Val) (v0 : Val)
    (distr : Bool) (get : List (PropName × Val) → List Image → List Image)
    (input : List Image) (pos : Nat)
    (hd : d ≠ nm) :
    resolveF u [] (.leaf [(nm, 0)] distr .append get) input
        ⟨[(0, ⟨.sampler g, v0, 0⟩)], pos⟩ =
      .ok (input ++ stampProv [(nm, v0)] (applyGet distr get [(nm, v0)] input),
           ⟨[(0, ⟨.sampler g, v0, 0⟩)], pos⟩) ∧
    resolveF u [] (.leaf [(nm, 0)] distr .append get) input
        ⟨[(0, ⟨.dependent [d] h2, v0, 0⟩)], pos⟩ =
      .error (.missingDependency d) := by
  constructor
  · simp [resolveF, validateDeps, lookupProp, gatherKwargs, ovLookup, applyMerge]
  · have hne : ¬ (nm = d) := fun h => hd h.symm
    simp [resolveF, validateDeps, lookupProp, firstMissing, dictLookup, hne]

/-- Claim C10: when one Property instance (id 0) is passed under
different names to two Feature constructors, one update() cycle samples it
exactly once (the entropy counter advances by one), and both owners
observe the same current value during that cycle's resolve. -/
theorem shared_property_sampled_once (g : Nat → Val) (v0 : Val)
    (k fr pos : Nat) (u : Nat → ℚ) (input : List Image) :
    updateF 4 1 sharedPair ⟨[(0, ⟨.sampler g, v0, 0⟩)], k, fr⟩ =
      .ok (sharedPair, ⟨[(0, ⟨.sampler g, g k, 1⟩)], k + 1, fr⟩) ∧
    resolveF u [] sharedPair input ⟨[(0, ⟨.sampler g, g k, 1⟩)], pos⟩ =
      .ok (input ++ [⟨1, [[("position", g k)]]⟩, ⟨1, [[("pos2", g k)]]⟩],
           ⟨[(0, ⟨.sampler g, g k, 1⟩)], pos⟩) := by
  constructor
  · simp [sharedPair, updateF, updateProps, updateProp, lookupProp, setProp]
  · simp [sharedPair, resolveF, validateDeps, lookupProp, gatherKwargs, ovLookup,
      applyGet, stampProv, applyMerge, getContent]

/-- Claim C5: after update(), a Property whose sampler depends by name on
a sibling computes from the sibling's value sampled in that same cycle
(never a stale one), even when declared before its dependency; each
sampler executes at most once per cycle — a property whose cycle marker
already equals the current cycle is left untouched. -/
theorem dependent_property_same_cycle (g : Nat → Val) (h2 : List Val → Val)
    (r0 b0 : Val) (k fr : Nat)
    (fuel cycle : Nat) (dict : PropertyDict) (pid : PropId) (nm2 : PropName)
    (stX : UState) (ps : PropertyState)
    (hlk : lookupProp stX.store pid = some ps) (hcy : ps.cycle = cycle) :
    updateF 5 1 (.leaf depDict false .override getContent)
        ⟨depStore g h2 r0 b0, k, fr⟩ =
      .ok (.leaf depDict false .override getContent,
           ⟨[(1, ⟨.dependent ["base_radius"] h2, h2 [g k], 1⟩),
             (0, ⟨.sampler g, g k, 1⟩)], k + 1, fr⟩) ∧
    updateProp (fuel + 1) cycle dict pid nm2 stX = .ok stX := by
  constructor
  · simp [updateF, updateProps, updateProp, updateDeps, readDeps, depDict, depStore,
      dictLookup, lookupProp, setProp]
  · simp [updateProp, hlk, hcy]

/-- The template's own property is untouched by copy allocation. -/
theorem lookupProp_dupStore_zero (g : Nat → Val) (v0 : Val) (k0 : Nat) :
    ∀ i, lookupProp (dupStore g v0 k0 i) 0 = some ⟨.sampler g, v0, 0⟩ := by
  intro i
  induction i with
  | zero => simp [dupStore, lookupProp]
  | succ n ih =>
    have hne : ¬ (1 + n = 0) := by omega
    simp [dupStore, lookupProp, hne, ih]

/-- Each instantiated copy's property holds its own draw. -/
theorem lookupProp_dupStore_copy (g : Nat → Val) (v0 : Val) (k0 : Nat) :
    ∀ i j, j < i →
      lookupProp (dupStore g v0 k0 i) (1 + j) = some ⟨.sampler g, g (k0 + j), 1⟩ := by
  intro i
  induction i with
  | zero => intro j hj; omega
  | succ n ih =>
    intro j hj
    by_cases hj2 : j = n
    · subst hj2
      simp [dupStore, lookupProp]
    · have hne : ¬ (1 + n = 1 + j) := by omega
      have hlt : j < n := by omega
      simp [dupStore, lookupProp, hne, ih j hlt]

/-- Unrolling the copies instantiated from index `i`. -/
theorem copyList_succ (i m : Nat) :
    copyList i (m + 1) = copyLeafAt (1 + i) :: copyList (i + 1) m := by
  simp [copyList, List.range_succ_eq_map, List.map_map]
  intro a ha
  have : 1 + i + (a + 1) = 1 + (i + 1) + a := by omega
  rw [this]

/-- Unrolling the images appended from index `i`. -/
theorem addedImgs_succ (g : Nat → Val) (k0 i m : Nat) :
    addedImgs g k0 i (m + 1) =
      ⟨1, [[("position", g (k0 + i))]]⟩ :: addedImgs g k0 (i + 1) m := by
  simp [addedImgs, List.range_succ_eq_map, List.map_map]
  intro a ha
  congr 1
  omega

/-- Duplicating the content leaf `m` times from copy index `i`: each step
allocates one fresh property instance and samples it with its own draw. -/
theorem runCopies_contentLeaf (g : Nat → Val) (v0 : Val) (k0 fl : Nat) :
    ∀ m i, runCopies (fun c s => updateF (fl + 2) 1 c s) contentLeaf m
        (dupState g v0 k0 i) =
      .ok (copyList i m, dupState g v0 k0 (i + m)) := by
  intro m
  induction m with
  | zero => intro i; simp [runCopies, copyList]
  | succ n ih =>
    intro i
    have hz := lookupProp_dupStore_zero g v0 k0 i
    rw [copyList_succ]
    have harith : i + 1 + n = i + (n + 1) := by omega
    have hstep : deepCopy contentLeaf (dupState g v0 k0 i) =
        .ok (copyLeafAt (1 + i),
             ⟨(1 + i, ⟨.sampler g, v0, 0⟩) :: dupStore g v0 k0 i, k0 + i, 1 + i + 1⟩) := by
      simp [deepCopy, contentLeaf, collectPids, copyProps, hz, renameFeature, renameId,
        dupState, copyLeafAt]
    have hupd : updateF (fl + 2) 1 (copyLeafAt (1 + i))
        ⟨(1 + i, ⟨.sampler g, v0, 0⟩) :: dupStore g v0 k0 i, k0 + i, 1 + i + 1⟩ =
        .ok (copyLeafAt (1 + i), dupState g v0 k0 (i + 1)) := by
      simp [updateF, copyLeafAt, updateProps, updateProp, lookupProp, setProp,
        dupState, dupStore]
      exact ⟨Nat.add_assoc k0 i 1, Nat.add_assoc 1 i 1⟩
    simp [runCopies, hstep, hupd, ih (i + 1), harith]

/-- Resolving the instantiated copies appends exactly one stamped image
per copy, in creation order, and leaves the resolve state unchanged. -/
theorem resolveList_copyList (g : Nat → Val) (v0 : Val) (k0 M : Nat) (u : Nat → ℚ) :
    ∀ m i, i + m ≤ M → ∀ (input : List Image) (pos : Nat),
      resolveList u [] (copyList i m) input ⟨dupStore g v0 k0 M, pos⟩ =
        .ok (input ++ addedImgs g k0 i m, ⟨dupStore g v0 k0 M, pos⟩) := by
  intro m
  induction m with
  | zero => intro i h input pos; simp [copyList, resolveList, addedImgs]
  | succ n ih =>
    intro i h input pos
    rw [copyList_succ, addedImgs_succ]
    have hlk := lookupProp_dupStore_copy g v0 k0 M i (by omega)
    have hleaf : resolveF u [] (copyLeafAt (1 + i)) input ⟨dupStore g v0 k0 M, pos⟩ =
        .ok (input ++ [⟨1, [[("position", g (k0 + i))]]⟩], ⟨dupStore g v0 k0 M, pos⟩) := by
      simp [resolveF, copyLeafAt, validateDeps, hlk, gatherKwargs, ovLookup, applyGet,
        getContent, stampProv, applyMerge]
    simp [resolveList, hleaf, ih (i + 1) (by omega)]

/-- One-step unfolding of `updateF` at a Duplicate node. -/
theorem updateF_dup_step (fl cycle : Nat) (t : Feature) (rule : Rule) (c0 : Nat)
    (cs : List Feature) (st : UState) :
    updateF (fl + 1) cycle (.duplicate t rule c0 cs) st =
      (match evalCount rule st with
       | .error e => .error e
       | .ok (n, st1) =>
         match runCopies (fun c s => updateF fl cycle c s) t n st1 with
         | .error e => .error e
         | .ok (copies, st2) => .ok (.duplicate t rule n copies, st2)) := rfl

/-- Claim C1: for `F ** n`, the number of copies resolved in a cycle
equals the count sampled during that cycle's update(): constant n = 5
yields exactly 5 provenance entries for F's content per resolve; a
resampled count yields exactly the sampled number m of entries; a sampled
count of 0 returns the input list unchanged; and resolve neither changes
the state nor consults the count rule — the count is frozen for the whole
cycle's resolve. -/
theorem duplicate_count_fidelity (g fc : Nat → Val) (v0 : Val) (k0 m : Nat)
    (u : Nat → ℚ) (input : List Image) (pos : Nat) (fl : Nat)
    (hm : fc k0 = (m : ℚ)) :
    updateF (fl + 3) 1 (.duplicate contentLeaf (.constant 5) 0 [])
        (dupState g v0 k0 0) =
      .ok (.duplicate contentLeaf (.constant 5) 5 (copyList 0 5), dupState g v0 k0 5) ∧
    resolveF u [] (.duplicate contentLeaf (.constant 5) 5 (copyList 0 5)) input
        ⟨dupStore g v0 k0 5, pos⟩ =
      .ok (input ++ addedImgs g k0 0 5, ⟨dupStore g v0 k0 5, pos⟩) ∧
    updateF (fl + 3) 1 (.duplicate contentLeaf (.sampler fc) 0 [])
        ⟨[(0, ⟨.sampler g, v0, 0⟩)], k0, 1⟩ =
      .ok (.duplicate contentLeaf (.sampler fc) m (copyList 0 m),
           dupState g v0 (k0 + 1) m) ∧
    resolveF u [] (.duplicate contentLeaf (.sampler fc) m (copyList 0 m)) input
        ⟨dupStore g v0 (k0 + 1) m, pos⟩ =
      .ok (input ++ addedImgs g (k0 + 1) 0 m, ⟨dupStore g v0 (k0 + 1) m, pos⟩) ∧
    resolveF u [] (.duplicate contentLeaf (.sampler fc) 0 (copyList 0 0)) input
        ⟨dupStore g v0 (k0 + 1) 0, pos⟩ =
      .ok (input, ⟨dupStore g v0 (k0 + 1) 0, pos⟩) ∧
    (∀ (t t' : Feature) (r r' : Rule) (n : Nat) (copies : List Feature)
       (inp : List Image) (stR : RState),
      resolveF u [] (.duplicate t r n copies) inp stR =
        resolveF u [] (.duplicate t' r' n copies) inp stR) := by
  refine ⟨?_, ?_, ?_, ?_, ?_, ?_⟩
  · have h5 : ratToCount ((5 : ℚ)) = .ok 5 := rfl
    have hrun := runCopies_contentLeaf g v0 k0 fl 5 0
    rw [updateF_dup_step]
    simp [evalCount, h5, hrun]
  · have hres := resolveList_copyList g v0 k0 5 u 5 0 (by omega) input pos
    simp [resolveF, hres]
  · have hcm : ratToCount ((m : ℚ)) = .ok m := by simp [ratToCount]
    have hrun2 := runCopies_contentLeaf g v0 (k0 + 1) fl m 0
    have hst : dupState g v0 (k0 + 1) 0 = ⟨[(0, ⟨.sampler g, v0, 0⟩)], k0 + 1, 1⟩ := rfl
    rw [hst] at hrun2
    rw [updateF_dup_step]
    simp [evalCount, hm, hcm, hrun2]
  · have hres2 := resolveList_copyList g v0 (k0 + 1) m u m 0 (by omega) input pos
    simp [resolveF, hres2]
  · simp [resolveF, resolveList, copyList]
  · intro t t' r r' n copies inp stR
    simp [resolveF]

/-- The number of instantiated copies always equals the requested count. -/
theorem runCopies_length
    (updF : Feature → UState → Except EngineError (Feature × UState)) (t : Feature) :
    ∀ (n : Nat) (st : UState) (copies : List Feature) (st' : UState),
      runCopies updF t n st = .ok (copies, st') → copies.length = n := by
  intro n
  induction n with
  | zero =>
    intro st copies st' h
    simp [runCopies] at h
    simp [h.1]
  | succ k ih =>
    intro st copies st' h
    rw [runCopies] at h
    split at h
    · exact absurd h (by simp)
    · split at h
      · exact absurd h (by simp)
      · split at h
        · exact absurd h (by simp)
        · simp at h
          obtain ⟨hc, hst⟩ := h
          subst hc
          simp
          exact ih _ _ _ (by assumption)

/-- Claim C2: on update() of `F ** n`, exactly the sampled count of deep
copies are instantiated; each copy has its own fresh property instance
(id `1 + j`) sampled with its own independent draw `g (k0 + 1 + j)`; and a
Property instance deliberately shared inside the template stays shared
within each copy — both leaves observe one draw per copy — while distinct
copies still use distinct fresh instances and draws. -/
theorem duplicate_update_fresh_independent_copies (g fc : Nat → Val) (v0 : Val)
    (k0 m : Nat) (u : Nat → ℚ) (input : List Image) (pos fl : Nat)
    (hm : fc k0 = (m : ℚ)) :
    (∀ (updF : Feature → UState → Except EngineError (Feature × UState))
       (t : Feature) (n : Nat) (st : UState) (copies : List Feature) (st' : UState),
      runCopies updF t n st = .ok (copies, st') → copies.length = n) ∧
    updateF (fl + 3) 1 (.duplicate contentLeaf (.sampler fc) 0 [])
        ⟨[(0, ⟨.sampler g, v0, 0⟩)], k0, 1⟩ =
      .ok (.duplicate contentLeaf (.sampler fc) m (copyList 0 m),
           dupState g v0 (k0 + 1) m) ∧
    (∀ j, j < m →
      lookupProp (dupStore g v0 (k0 + 1) m) (1 + j) =
        some ⟨.sampler g, g (k0 + 1 + j), 1⟩) ∧
    copyList 0 m =
      (List.range m).map (fun j => .leaf [("position", 1 + j)] false .append getContent) ∧
    updateF 6 1 (.duplicate sharedTmpl (.constant 2) 0 [])
        ⟨[(0, ⟨.sampler g, v0, 0⟩)], k0, 1⟩ =
      .ok (.duplicate sharedTmpl (.constant 2) 2 [copyShared 1, copyShared 2],
           ⟨[(2, ⟨.sampler g, g (k0 + 1), 1⟩), (1, ⟨.sampler g, g k0, 1⟩),
             (0, ⟨.sampler g, v0, 0⟩)], k0 + 2, 3⟩) ∧
    resolveF u [] (.duplicate sharedTmpl (.constant 2) 2 [copyShared 1, copyShared 2])
        input
        ⟨[(2, ⟨.sampler g, g (k0 + 1), 1⟩), (1, ⟨.sampler g, g k0, 1⟩),
          (0, ⟨.sampler g, v0, 0⟩)], pos⟩ =
      .ok (input ++ [⟨1, [[("a", g k0)]]⟩, ⟨1, [[("b", g k0)]]⟩,
                     ⟨1, [[("a", g (k0 + 1))]]⟩, ⟨1, [[("b", g (k0 + 1))]]⟩],
           ⟨[(2, ⟨.sampler g, g (k0 + 1), 1⟩), (1, ⟨.sampler g, g k0, 1⟩),
             (0, ⟨.sampler g, v0, 0⟩)], pos⟩) := by
  refine ⟨?_, ?_, ?_, ?_, ?_, ?_⟩
  · intro updF t n st copies st' h
    exact runCopies_length updF t n st copies st' h
  · have hcm : ratToCount ((m : ℚ)) = .ok m := by simp [ratToCount]
    have hrun2 := runCopies_contentLeaf g v0 (k0 + 1) fl m 0
    have hst : dupState g v0 (k0 + 1) 0 = ⟨[(0, ⟨.sampler g, v0, 0⟩)], k0 + 1, 1⟩ := rfl
    rw [hst] at hrun2
    rw [updateF_dup_step]
    simp [evalCount, hm, hcm, hrun2]
  · intro j hj
    exact lookupProp_dupStore_copy g v0 (k0 + 1) m j hj
  · simp [copyList, copyLeafAt]
  · have h2c : ratToCount ((2 : ℚ)) = .ok 2 := rfl
    rw [updateF_dup_step]
    simp [evalCount, h2c, runCopies, deepCopy, copyProps, collectPids, sharedTmpl,
      renameFeature, renameId, copyShared, getContent, updateF, updateProps,
      updateProp, lookupProp, setProp]
  · simp [resolveF, resolveList, copyShared, validateDeps, lookupProp, gatherKwargs,
      ovLookup, applyGet, getContent, stampProv, applyMerge]

/-- Resolve never writes the persisted property heap. -/
theorem resolveF_preserves_store (u : Nat → ℚ) (ov : List (PropName × Val)) :
    ∀ (f : Feature) (input : List Image) (st : RState) (out : List Image) (st' : RState),
      resolveF u ov f input st = .ok (out, st') → st'.store = st.store := by
  intro f input st
  refine resolveF.induct u ov
    (fun f input st => ∀ out st',
      resolveF u ov f input st = .ok (out, st') → st'.store = st.store)
    (fun fs input st => ∀ out st',
      resolveList u ov fs input st = .ok (out, st') → st'.store = st.store)
    ?_ ?_ ?_ ?_ ?_ ?_ ?_ ?_ ?_ ?_ ?_ ?_ f input st
  · intro input st dict d m g e hval out st' hres
    simp [resolveF, hval] at hres
  · intro input st dict d m g a hval e hgath out st' hres
    simp [resolveF, hval, hgath] at hres
  · intro input st dict d m g a hval ks hgath out st' hres
    simp [resolveF, hval, hgath] at hres
    rw [hres.2.symm]
  · intro input st a b e ha iha out st' hres
    simp [resolveF, ha] at hres
  · intro input st a b mid st1 ha iha ihb out st' hres
    simp [resolveF, ha] at hres
    rw [ihb out st' hres]
    exact iha mid st1 ha
  · intro input st c pPid hlk out st' hres
    simp [resolveF, hlk] at hres
  · intro input st c pPid ps hlk hlt ih out st' hres
    simp [resolveF, hlk, hlt] at hres
    exact ih out st' hres
  · intro input st c pPid ps hlk hge out st' hres
    simp [resolveF, hlk, hge] at hres
    rw [hres.2.symm]
  · intro input st t r count copies ih out st' hres
    simp [resolveF] at hres
    exact ih out st' hres
  · intro input st out st' hres
    simp [resolveList] at hres
    rw [hres.2.symm]
  · intro c rest input st e hc ihc out st' hres
    simp [resolveList, hc] at hres
  · intro c rest input st mid st1 hc ihc ihrest out st' hres
    simp [resolveList, hc] at hres
    rw [ihrest out st' hres]
    exact ihc mid st1 hc

/-- Gathering kwargs fails or succeeds independently of the overrides:
overrides only shadow values, never change the control path. -/
theorem gatherKwargs_shape (store : Store) (ov1 ov2 : List (PropName × Val)) :
    ∀ dict, (∃ e, gatherKwargs store ov1 dict = .error e ∧
                  gatherKwargs store ov2 dict = .error e) ∨
            (∃ ks1 ks2, gatherKwargs store ov1 dict = .ok ks1 ∧
                        gatherKwargs store ov2 dict = .ok ks2) := by
  intro dict
  induction dict with
  | nil => right; exact ⟨[], [], rfl, rfl⟩
  | cons hd rest ih =>
    obtain ⟨n, pid⟩ := hd
    cases hlk : lookupProp store pid with
    | none =>
      left
      exact ⟨.missingProperty n, by simp [gatherKwargs, hlk], by simp [gatherKwargs, hlk]⟩
    | some ps =>
      rcases ih with ⟨e, h1, h2⟩ | ⟨ks1, ks2, h1, h2⟩
      · left
        exact ⟨e, by simp [gatherKwargs, hlk, h1], by simp [gatherKwargs, hlk, h2]⟩
      · right
        cases ho1 : ovLookup ov1 n with
        | none =>
          cases ho2 : ovLookup ov2 n with
          | none =>
            exact ⟨(n, ps.current) :: ks1, (n, ps.current) :: ks2,
              by simp [gatherKwargs, hlk, h1, ho1], by simp [gatherKwargs, hlk, h2, ho2]⟩
          | some w2 =>
            exact ⟨(n, ps.current) :: ks1, (n, w2) :: ks2,
              by simp [gatherKwargs, hlk, h1, ho1], by simp [gatherKwargs, hlk, h2, ho2]⟩
        | some w1 =>
          cases ho2 : ovLookup ov2 n with
          | none =>
            exact ⟨(n, w1) :: ks1, (n, ps.current) :: ks2,
              by simp [gatherKwargs, hlk, h1, ho1], by simp [gatherKwargs, hlk, h2, ho2]⟩
          | some w2 =>
            exact ⟨(n, w1) :: ks1, (n, w2) :: ks2,
              by simp [gatherKwargs, hlk, h1, ho1], by simp [gatherKwargs, hlk, h2, ho2]⟩

/-- Per-call overrides never change the control path or the final resolve
state: with any two override sets (and any two inputs), resolve fails with
the same error or succeeds in the same state. -/
theorem resolveF_override_shape (u : Nat → ℚ) (ov1 ov2 : List (PropName × Val)) :
    ∀ (f : Feature) (input : List Image) (st : RState) (input2 : List Image),
      sameShape (resolveF u ov1 f input st) (resolveF u ov2 f input2 st) := by
  intro f input st
  refine resolveF.induct u ov1
    (fun f input st => ∀ input2,
      sameShape (resolveF u ov1 f input st) (resolveF u ov2 f input2 st))
    (fun fs input st => ∀ input2,
      sameShape (resolveList u ov1 fs input st) (resolveList u ov2 fs input2 st))
    ?_ ?_ ?_ ?_ ?_ ?_ ?_ ?_ ?_ ?_ ?_ ?_ f input st
  · intro input st dict d m g e hval input2
    simp [resolveF, hval, sameShape]
  · intro input st dict d m g a hval e hgath input2
    rcases gatherKwargs_shape st.store ov1 ov2 dict with ⟨e', g1, g2⟩ | ⟨ks1, ks2, g1, g2⟩
    · rw [hgath] at g1
      injection g1 with he
      subst he
      simp [resolveF, hval, hgath, g2, sameShape]
    · rw [hgath] at g1
      exact absurd g1 (by simp)
  · intro input st dict d m g a hval ks hgath input2
    rcases gatherKwargs_shape st.store ov1 ov2 dict with ⟨e', g1, g2⟩ | ⟨ks1, ks2, g1, g2⟩
    · rw [hgath] at g1
      exact absurd g1 (by simp)
    · simp [resolveF, hval, hgath, g2, sameShape]
  · intro input st a b e ha iha input2
    have h := iha input2
    cases hr2 : resolveF u ov2 a input2 st with
    | error e2 =>
      rw [ha, hr2] at h
      simp [sameShape] at h
      subst h
      simp [resolveF, ha, hr2, sameShape]
    | ok r2 =>
      rw [ha, hr2] at h
      simp [sameShape] at h
  · intro input st a b mid st1 ha iha ihb input2
    have h := iha input2
    cases hr2 : resolveF u ov2 a input2 st with
    | error e2 =>
      rw [ha, hr2] at h
      obtain ⟨m2, s2⟩ := (⟨mid, st1⟩ : List Image × RState)
      simp [sameShape] at h
    | ok r2 =>
      obtain ⟨mid2, st1b⟩ := r2
      rw [ha, hr2] at h
      simp [sameShape] at h
      subst h
      simp only [resolveF, ha, hr2]
      exact ihb mid2
  · intro input st c pPid hlk input2
    simp [resolveF, hlk, sameShape]
  · intro input st c pPid ps hlk hlt ih input2
    simp only [resolveF, hlk, if_pos hlt]
    exact ih input2
  · intro input st c pPid ps hlk hge input2
    simp [resolveF, hlk, hge, sameShape]
  · intro input st t r count copies ih input2
    simp only [resolveF]
    exact ih input2
  · intro input st input2
    simp [resolveList, sameShape]
  · intro c rest input st e hc ihc input2
    have h := ihc input2
    cases hr2 : resolveF u ov2 c input2 st with
    | error e2 =>
      rw [hc, hr2] at h
      simp [sameShape] at h
      subst h
      simp [resolveList, hc, hr2, sameShape]
    | ok r2 =>
      rw [hc, hr2] at h
      simp [sameShape] at h
  · intro c rest input st mid st1 hc ihc ihrest input2
    have h := ihc input2
    cases hr2 : resolveF u ov2 c input2 st with
    | error e2 =>
      rw [hc, hr2] at h
      simp [sameShape] at h
    | ok r2 =>
      obtain ⟨mid2, st1b⟩ := r2
      rw [hc, hr2] at h
      simp [sameShape] at h
      subst h
      simp only [resolveList, hc, hr2]
      exact ihrest mid2

/-- Claim C8: keyword overrides passed to resolve are scoped to that
single call: the persisted property heap is unchanged, the final resolve
state is identical to that of the non-overridden call, and all subsequent
update() and resolve() cycles behave exactly as if the overridden call had
used the stored property values. -/
theorem resolve_overrides_scoped (u : Nat → ℚ) (ov : List (PropName × Val))
    (f : Feature) (input : List Image) (store : Store) (pos : Nat)
    (out1 out0 : List Image) (st1 st0 : RState)
    (h1 : resolveF u ov f input ⟨store, pos⟩ = .ok (out1, st1))
    (h0 : resolveF u [] f input ⟨store, pos⟩ = .ok (out0, st0)) :
    st1.store = store ∧ st0.store = store ∧ st1 = st0 ∧
    (∀ (f2 : Feature) (input2 : List Image) (ov2 : List (PropName × Val)),
      resolveF u ov2 f2 input2 st1 = resolveF u ov2 f2 input2 st0) ∧
    (∀ (fuel cyc en fr : Nat) (f2 : Feature),
      updateF fuel cyc f2 ⟨st1.store, en, fr⟩ = updateF fuel cyc f2 ⟨st0.store, en, fr⟩) := by
  have heq : st1 = st0 := by
    have h := resolveF_override_shape u ov [] f input ⟨store, pos⟩ input
    rw [h1, h0] at h
    simpa [sameShape] using h
  refine ⟨?_, ?_, heq, ?_, ?_⟩
  · exact resolveF_preserves_store u ov f input ⟨store, pos⟩ out1 st1 h1
  · exact resolveF_preserves_store u [] f input ⟨store, pos⟩ out0 st0 h0
  · intro f2 input2 ov2
    rw [heq]
  · intro fuel cyc en fr f2
    rw [heq]

theorem duplicate_count_fidelity_witness :
    (fun _ : Nat => (2 : ℚ)) 0 = ((2 : Nat) : ℚ) ∧
    resolveF (fun _ => (1 : ℚ)/2) []
        (.duplicate contentLeaf (.sampler (fun _ => (2 : ℚ))) 0 (copyList 0 0)) []
        ⟨dupStore (fun n => (n : ℚ)) 0 1 0, 0⟩ =
      .ok ([], ⟨dupStore (fun n => (n : ℚ)) 0 1 0, 0⟩) :=
  ⟨by norm_num,
   (duplicate_count_fidelity (fun n => (n : ℚ)) (fun _ => 2) 0 0 2 (fun _ => (1 : ℚ)/2)
      [] 0 0 (by norm_num)).2.2.2.2.1⟩

theorem duplicate_update_fresh_independent_copies_witness :
    (fun _ : Nat => (2 : ℚ)) 0 = ((2 : Nat) : ℚ) ∧
    copyList 0 2 =
      (List.range 2).map (fun j => .leaf [("position", 1 + j)] false .append getContent) :=
  ⟨by norm_num,
   (duplicate_update_fresh_independent_copies (fun n => (n : ℚ)) (fun _ => 2) 0 0 2
      (fun _ => (1 : ℚ)/2) [] 0 0 (by norm_num)).2.2.2.1⟩

theorem dependent_property_same_cycle_witness :
    lookupProp [(7, ⟨.constant 3, 3, 9⟩)] 7 = some ⟨.constant 3, 3, 9⟩ ∧
    updateProp 1 9 [] 7 "x" ⟨[(7, ⟨.constant 3, 3, 9⟩)], 0, 0⟩ =
      .ok ⟨[(7, ⟨.constant 3, 3, 9⟩)], 0, 0⟩ :=
  ⟨rfl,
   (dependent_property_same_cycle (fun n => (n : ℚ)) (fun _ => 3) 0 0 0 5 0 9 [] 7 "x"
      ⟨[(7, ⟨.constant 3, 3, 9⟩)], 0, 0⟩ ⟨.constant 3, 3, 9⟩ rfl rfl).2⟩

theorem probability_boundary_witness :
    (0 ≤ (1 : ℚ)/2 ∧ (1 : ℚ)/2 < 1) ∧
    resolveF (fun _ => (1 : ℚ)/2) [] (.probability contentLeaf 4) []
        ⟨[(4, ⟨.constant 0, 0, 0⟩)], 0⟩ =
      .ok ([], ⟨[(4, ⟨.constant 0, 0, 0⟩)], 1⟩) :=
  ⟨by norm_num,
   (probability_boundary (fun _ => (1 : ℚ)/2) [] contentLeaf []
      [(3, ⟨.constant 1, 1, 0⟩)] [(4, ⟨.constant 0, 0, 0⟩)] 0 0 3 4
      ⟨.constant 1, 1, 0⟩ ⟨.constant 0, 0, 0⟩
      (fun n => ⟨by norm_num, by norm_num⟩) rfl rfl rfl rfl).2⟩

theorem merge_strategy_semantics_witness :
    validateDeps ([] : Store) [] [] = .ok () ∧
    resolveF (fun _ => (1 : ℚ)/2) [] (.leaf [] false .append (fun _ _ => [])) []
        ⟨[], 0⟩ =
      .ok ([] ++ stampProv [] (applyGet false (fun _ _ => []) [] []), ⟨[], 0⟩) :=
  ⟨rfl,
   (merge_strategy_semantics (fun _ => (1 : ℚ)/2) [] [] false (fun _ _ => [])
      [] ⟨[], 0⟩ [] rfl rfl).2⟩

theorem resolve_overrides_scoped_witness :
    resolveF (fun _ => (1 : ℚ)/2) [("position", 9)] contentLeaf []
        ⟨[(0, ⟨.sampler (fun n => (n : ℚ)), 5, 0⟩)], 0⟩ =
      .ok ([⟨1, [[("position", 9)]]⟩], ⟨[(0, ⟨.sampler (fun n => (n : ℚ)), 5, 0⟩)], 0⟩) ∧
    (⟨[(0, ⟨.sampler (fun n => (n : ℚ)), 5, 0⟩)], 0⟩ : RState) =
      ⟨[(0, ⟨.sampler (fun n => (n : ℚ)), 5, 0⟩)], 0⟩ :=
  ⟨by simp [resolveF, contentLeaf, validateDeps, lookupProp, gatherKwargs, ovLookup,
      applyGet, getContent, stampProv, applyMerge],
   (resolve_overrides_scoped (fun _ => (1 : ℚ)/2) [("position", 9)] contentLeaf []
      [(0, ⟨.sampler (fun n => (n : ℚ)), 5, 0⟩)] 0
      [⟨1, [[("position", 9)]]⟩] [⟨1, [[("position", 5)]]⟩]
      ⟨[(0, ⟨.sampler (fun n => (n : ℚ)), 5, 0⟩)], 0⟩
      ⟨[(0, ⟨.sampler (fun n => (n : ℚ)), 5, 0⟩)], 0⟩
      (by simp [resolveF, contentLeaf, validateDeps, lookupProp, gatherKwargs, ovLookup,
        applyGet, getContent, stampProv, applyMerge])
      (by simp [resolveF, contentLeaf, validateDeps, lookupProp, gatherKwargs, ovLookup,
        applyGet, getContent, stampProv, applyMerge])).2.2.1⟩

theorem resolve_defaults_and_missing_dependency_witness :
    ("q" : PropName) ≠ "position" ∧
    resolveF (fun _ => (1 : ℚ)/2) []
        (.leaf [("position", 0)] false .append getContent) []
        ⟨[(0, ⟨.dependent ["q"] (fun _ => 0), 0, 0⟩)], 0⟩ =
      .error (.missingDependency "q") :=
  ⟨by decide,
   (resolve_defaults_and_missing_dependency (fun _ => (1 : ℚ)/2) "position" "q"
      (fun n => (n : ℚ)) (fun _ => 0) 0 false getContent [] 0 (by decide)).2⟩
